import Mathlib

/-!
Shallow embedding of the caching / normalization core of the
`reddit-who-dis` repository (src/reddit_who_dis/), together with proofs
about the properties its specification states.

Modelling conventions used throughout:
* Unix times and the `cache_days` retention setting are modelled as `Int`
  seconds (Python uses floats; no claim below depends on sub-second
  precision).
* Python dicts are modelled as association lists with first-match
  `List.lookup`: setting a key is modelled by prepending, so the lookup
  of the most recent write wins, exactly like a dict assignment.
* The filesystem under the cache directory is modelled as an association
  list from path to the parsed JSON document stored in the file; writing
  with `json.dump` and reading back with `json.load` is the identity on
  the documents this program stores, so the file content is kept in
  parsed form.
* Python's `list.sort(key=..., reverse=True)` is a stable sort; a stable
  sort's output is uniquely determined by the key function, so it is
  modelled by a structural stable insertion sort (`sortBy`).
-/

set_option maxRecDepth 16384

namespace RedditWhoDis

/-! ### Character/string ordering (Python compares strings by code point) -/

/-- Lexicographic comparison of character lists by code point, as Python
compares `str` values (used by `json.dumps(..., sort_keys=True)`). -/
def charListLe : List Char → List Char → Bool
  | [], _ => true
  | _ :: _, [] => false
  | a :: as, b :: bs => if a = b then charListLe as bs else decide (a < b)

/-- `a <= b` on strings, by code-point lexicographic order. -/
def strLe (a b : String) : Bool := charListLe a.data b.data

/-! ### Stable insertion sort

Python's `list.sort` and `sorted` are stable; with `reverse=True` the
comparison is flipped but equal elements still keep their original
order.  A stable sort's output is uniquely determined by the comparison,
so this structural insertion sort is extensionally the sort the source
uses.  `le b a && !le a b` means `b` is *strictly* before `a`; `a` is
inserted in front of the first element not strictly before it, which
keeps ties in input order. -/
def insertBy (le : α → α → Bool) (a : α) : List α → List α
  | [] => [a]
  | b :: bs => if le b a && !le a b then b :: insertBy le a bs else a :: b :: bs

/-- Stable sort by `le` (see `insertBy`). -/
def sortBy (le : α → α → Bool) : List α → List α
  | [] => []
  | a :: as => insertBy le a (sortBy le as)

/-! ### JSON values (`json` module) -/

/-- A parsed JSON document, as produced by `json.load` / consumed by
`json.dump`.  Numbers are restricted to integers (every number this
program stores is a timestamp or count; see the module conventions). -/
inductive JVal where
  | null : JVal
  | bool (b : Bool) : JVal
  | int (n : Int) : JVal
  | str (s : String) : JVal
  | arr (elems : List JVal) : JVal
  | obj (fields : List (String × JVal)) : JVal
deriving Repr

/-- JSON string escaping for one character (the cases `json.dumps` escapes
that can occur in this program's data). -/
def jsonEscapeChar (c : Char) : String :=
  if c = '"' then "\\\"" else if c = '\\' then "\\\\"
  else if c = '\n' then "\\n" else String.singleton c

/-- JSON string escaping. -/
def jsonEscape (s : String) : String := String.join (s.data.map jsonEscapeChar)

/-- Comparison of rendered object fields by key, for `sort_keys=True`. -/
def fieldKeyLe (a b : String × String) : Bool := strLe a.1 b.1

mutual
/-- `json.dumps(v, sort_keys=True)` with the default separators: object
fields are serialized in ascending key order at every nesting level, so
the rendering never depends on dict insertion order. -/
def dumps_sorted : JVal → String
  | .null => "null"
  | .bool b => cond b "true" "false"
  | .int n => toString n
  | .str s => "\"" ++ jsonEscape s ++ "\""
  | .arr xs => "[" ++ String.intercalate ", " (dumps_elems xs) ++ "]"
  | .obj fs =>
      "\x7b" ++
        String.intercalate ", "
          ((sortBy fieldKeyLe (dumps_fields fs)).map
            (fun kv => "\"" ++ jsonEscape kv.1 ++ "\": " ++ kv.2)) ++
      "\x7d"

/-- Serialize each array element. -/
def dumps_elems : List JVal → List String
  | [] => []
  | v :: rest => dumps_sorted v :: dumps_elems rest

/-- Serialize each object field's value, keeping its key. -/
def dumps_fields : List (String × JVal) → List (String × String)
  | [] => []
  | kv :: rest => (kv.1, dumps_sorted kv.2) :: dumps_fields rest
end

/-! ### CacheManager (src/reddit_who_dis/cache_manager.py) -/

/-- Stand-in for `hashlib.sha256(...).hexdigest()`: modelled as a fixed
deterministic digest function of the input characters.  SHA-256 itself is
not re-implemented; every claim below depends only on the digest being a
function (equal inputs give equal hex digests). -/
def sha256_hex (s : String) : String :=
  (Nat.toDigits 16 (s.data.foldl (fun h c => (h * 131 + c.toNat) % (2 ^ 256)) 5381)).asString

/-- The `CacheManager` construction state (`__init__`, lines 13-22; the
directory-creation side effect has no observable effect in the store
model). -/
structure CacheManager where
  cache_days : Int
  cache_dir : String

/-- The cache-control keys excluded from the fingerprint
(`_generate_config_hash`, line 53). -/
def cacheControlKeys : List String := ["cache_days", "force_refresh", "use_cache"]

/-- The dict comprehension of `_generate_config_hash` (lines 52-53):
keep the entries whose key is not cache-control, in insertion order. -/
def analysis_config (config_dict : List (String × JVal)) : List (String × JVal) :=
  config_dict.filter (fun kv => decide (kv.1 ∉ cacheControlKeys))

/-- `CacheManager._generate_config_hash` (lines 42-55): drop the
cache-control keys, serialize with `json.dumps(..., sort_keys=True)`,
digest. -/
def CacheManager.generate_config_hash (config_dict : List (String × JVal)) : String :=
  sha256_hex (dumps_sorted (JVal.obj (analysis_config config_dict)))

/-- `CacheManager._generate_cache_key` (lines 29-40). -/
def CacheManager.generate_cache_key (username config_hash : String) : String :=
  sha256_hex (username ++ ":" ++ config_hash)

/-- `CacheManager.get_cache_path` (lines 57-69). -/
def CacheManager.get_cache_path (mgr : CacheManager) (username : String)
    (config_dict : List (String × JVal)) : String :=
  mgr.cache_dir ++ "/analysis_" ++
    CacheManager.generate_cache_key username
      (CacheManager.generate_config_hash config_dict) ++ ".json"

/-- The cache directory's files: path -> parsed JSON document. -/
abbrev CacheFS := List (String × JVal)

/-- Reading a file of the store (`os.path.exists` + `json.load`). -/
def fsRead (fs : CacheFS) (path : String) : Option JVal := fs.lookup path

/-- Writing (or overwriting) a file of the store (`json.dump`). -/
def fsWrite (fs : CacheFS) (path : String) (doc : JVal) : CacheFS := (path, doc) :: fs

/-- `cache_data.get(key, default)`: `some` of the field (or the default)
when the document is a JSON object, `none` when `.get` itself raises
(non-dict document), which the caller's `except` turns into a miss. -/
def pyDictGet (doc : JVal) (key : String) (default : JVal) : Option JVal :=
  match doc with
  | .obj fields => some ((fields.lookup key).getD default)
  | _ => none

/-- A JSON value usable as a number in `time.time() - ts`; anything else
raises TypeError there, which the caller's `except` turns into a miss. -/
def asInt : JVal → Option Int
  | .int n => some n
  | _ => none

/-- `CacheManager.get_cached_result` (lines 71-101) with the retention
horizon `self.cache_days * 24 * 60 * 60` of line 92 taken as the explicit
`max_age_seconds` parameter of the spec's `get` contract; the method
itself is `get_cached_result` below, which instantiates it.  A missing
file, a non-dict document, a non-numeric timestamp (the `except` path),
or a record older than the horizon (strict `>`) all yield `none`; the
store is never modified. -/
def CacheManager.get_cached_result_at (mgr : CacheManager) (max_age_seconds : Int)
    (fs : CacheFS) (username : String) (config_dict : List (String × JVal))
    (now : Int) : Option JVal :=
  match fsRead fs (mgr.get_cache_path username config_dict) with
  | none => none
  | some cache_data =>
    match pyDictGet cache_data "timestamp" (JVal.int 0) with
    | none => none
    | some tsv =>
      match asInt tsv with
      | none => none
      | some ts =>
        if now - ts > max_age_seconds then none
        else some cache_data

/-- `CacheManager.get_cached_result` (lines 71-101). -/
def CacheManager.get_cached_result (mgr : CacheManager) (fs : CacheFS)
    (username : String) (config_dict : List (String × JVal)) (now : Int) : Option JVal :=
  mgr.get_cached_result_at (mgr.cache_days * 24 * 60 * 60) fs username config_dict now

/-- The `cache_data` wrapper record built by `CacheManager.save_result`
(lines 112-117): `{username, timestamp, config_hash, result}`, in that
insertion order. -/
def CacheManager.save_record (username : String) (config_dict : List (String × JVal))
    (analysis_result : JVal) (now : Int) : JVal :=
  JVal.obj
    [("username", .str username),
     ("timestamp", .int now),
     ("config_hash", .str (CacheManager.generate_config_hash config_dict)),
     ("result", analysis_result)]

/-- `CacheManager.save_result` (lines 103-124): write the wrapper record
at the derived path, overwriting any prior record there (the
write-failure branch only logs; the successful write is modelled). -/
def CacheManager.save_result (mgr : CacheManager) (fs : CacheFS) (username : String)
    (config_dict : List (String × JVal)) (analysis_result : JVal) (now : Int) : CacheFS :=
  fsWrite fs (mgr.get_cache_path username config_dict)
    (CacheManager.save_record username config_dict analysis_result now)

/-! ### Subreddit description cache (cache_manager.py lines 126-221) -/

/-- One entry of the subreddit-description cache file:
`{"desc": ..., "timestamp": ...}`.  `desc` is `Option` because
`cache_entry.get("desc")` defaults to `None`; a missing timestamp is the
default `0` of `cache_entry.get("timestamp", 0)`. -/
structure SubEntry where
  desc : Option String
  timestamp : Int
deriving Repr, DecidableEq

/-- State threaded through the per-subreddit loop of
`get_subreddit_descriptions`: the result mapping, the (mutated) cache
mapping, and the subreddits for which the network collaborator
(`reddit_instance.subreddit(sub)`, lines 204-205) was invoked. -/
structure SubFetchState where
  descs : List (String × String)
  cache : List (String × SubEntry)
  fetched : List String
deriving Repr

/-- `desc.strip().replace("\n", " ")` (line 206). -/
def clean_desc (s : String) : String := (s.trim).replace "\n" " "

/-- Outcome of one collaborator call (lines 203-215): on success the
description text (after the `or`-chain) is cleaned; on an exception the
fixed sentinel is used. -/
def fetch_desc_result (fetch : String → Option String) (sub : String) : String :=
  match fetch sub with
  | some raw => clean_desc raw
  | none => "(Could not fetch description)"

/-- The `needs_refresh` test of lines 193-200, as the cached description
it would reuse: `some d` iff `force_refresh` is false, a cache entry for
`sub` exists, its `desc` is not `None`, and
`now - ts < cache_days * 24 * 60 * 60`. -/
def sub_cache_fresh (mgr : CacheManager) (force_refresh : Bool) (now : Int)
    (cache : List (String × SubEntry)) (sub : String) : Option String :=
  if force_refresh then none
  else
    match cache.lookup sub with
    | none => none
    | some entry =>
      match entry.desc with
      | none => none
      | some d =>
          if now - entry.timestamp < mgr.cache_days * 24 * 60 * 60 then some d else none

/-- One iteration of the `for sub in subreddits` loop of
`CacheManager.get_subreddit_descriptions` (lines 191-215): a fresh cached
entry is returned unchanged with no collaborator call; otherwise the
collaborator is called and both mappings are updated with timestamp
`now` (also on collaborator failure). -/
def get_subreddit_descriptions_step (mgr : CacheManager)
    (fetch : String → Option String) (force_refresh : Bool) (now : Int)
    (st : SubFetchState) (sub : String) : SubFetchState :=
  match sub_cache_fresh mgr force_refresh now st.cache sub with
  | some d => { st with descs := (sub, d) :: st.descs }
  | none =>
    let d := fetch_desc_result fetch sub
    { descs := (sub, d) :: st.descs,
      cache := (sub, ⟨some d, now⟩) :: st.cache,
      fetched := st.fetched ++ [sub] }

/-- `CacheManager.get_subreddit_descriptions` (lines 167-221), with the
collaborator abstracted as `fetch` (`none` = the praw call raised) and
the loaded cache file and current time explicit.  The returned state
carries the result mapping, the cache as saved back (when nothing was
refreshed the saved cache equals the input one, so returning it
unconditionally is faithful), and the invoked-collaborator log. -/
def CacheManager.get_subreddit_descriptions (mgr : CacheManager)
    (fetch : String → Option String) (subreddits : List String)
    (force_refresh : Bool) (cache : List (String × SubEntry)) (now : Int) : SubFetchState :=
  subreddits.foldl (get_subreddit_descriptions_step mgr fetch force_refresh now)
    ⟨[], cache, []⟩

/-! ### Data models (src/reddit_who_dis/models.py) -/

/-- `html.escape(s, quote=True)` on one character.  The stdlib performs
sequential `str.replace` passes (`&` first); since no replacement output
contains a character a later pass rewrites, the per-character map is the
same function. -/
def htmlEscapeChar (c : Char) : String :=
  if c = '&' then "&amp;" else if c = '<' then "&lt;" else if c = '>' then "&gt;"
  else if c = '"' then "&quot;" else if c = '\'' then "&#x27;" else String.singleton c

/-- `html.escape(s, quote=True)` for an `str` argument. -/
def html_escape (s : String) : String := String.join (s.data.map htmlEscapeChar)

/-- A Python-level error that escapes an expression. -/
inductive PyErr where
  | attributeError : PyErr
  | typeError : PyErr
deriving Repr, DecidableEq

/-- `html.escape` applied to an `Optional[str]`: on `None` the stdlib's
`s.replace("&", "&amp;")` raises AttributeError. -/
def html_escape_opt : Option String → Except PyErr String
  | some s => .ok (html_escape s)
  | none => .error .attributeError

/-- Python `s[:n]` for a nonnegative bound. -/
def py_take (s : String) (n : Nat) : String := String.mk (s.data.take n)

/-- Civil date (year, month, day) from days since the Unix epoch
(Howard Hinnant's algorithm, with floor division). -/
def civil_from_days (z0 : Int) : Int × Int × Int :=
  let z := z0 + 719468
  let era : Int := Int.fdiv z 146097
  let doe : Int := z - era * 146097
  let yoe : Int := Int.fdiv (doe - Int.fdiv doe 1460 + Int.fdiv doe 36524 - Int.fdiv doe 146096) 365
  let y : Int := yoe + era * 400
  let doy : Int := doe - (365 * yoe + Int.fdiv yoe 4 - Int.fdiv yoe 100)
  let mp : Int := Int.fdiv (5 * doy + 2) 153
  let d : Int := doy - Int.fdiv (153 * mp + 2) 5 + 1
  let m : Int := if mp < 10 then mp + 3 else mp - 9
  (if m ≤ 2 then y + 1 else y, m, d)

/-- Zero-pad a (month/day) number to two digits. -/
def pad2 (n : Int) : String := if 0 ≤ n ∧ n < 10 then "0" ++ toString n else toString n

/-- `datetime.datetime.fromtimestamp(ts).strftime('%Y-%m-%d')`, modelled
in UTC (`fromtimestamp` uses the local timezone; no claim below inspects
the rendered date). -/
def strftime_Y_m_d (ts : Int) : String :=
  let c := civil_from_days (Int.fdiv ts 86400)
  toString c.1 ++ "-" ++ pad2 c.2.1 ++ "-" ++ pad2 c.2.2

/-- The `Comment` dataclass (models.py lines 28-40): base fields of
`RedditActivity` followed by the comment fields.  `ups`, `downs` have no
defaults; `parent_author` and `parent_context` default to `None`.
`__post_init__` forces `type = "comment"`. -/
structure Comment where
  id : String
  subreddit : String
  created_utc : Int
  type : String
  body : String
  link_title : String
  ups : Int
  downs : Int
  parent_author : Option String := none
  parent_context : Option String := none
deriving Repr, DecidableEq

/-- The `Post` dataclass (models.py lines 70-80); `__post_init__` forces
`type = "post"`. -/
structure Post where
  id : String
  subreddit : String
  created_utc : Int
  type : String
  title : String
  selftext : String
  ups : Int
  downs : Int
deriving Repr, DecidableEq

/-- `Comment.to_xml` (models.py lines 42-67).  The `ParentContext`
element is built iff `self.parent_context` is truthy (non-`None` and
non-empty); inside it `html.escape(self.parent_author)` is applied to an
`Optional[str]`, so a `None` author raises AttributeError, modelled by
the `Except` error. -/
def Comment.to_xml (c : Comment) : Except PyErr String := do
  let parent_context_xml ←
    match c.parent_context with
    | some pc =>
        if pc = "" then pure ""
        else do
          let a ← html_escape_opt c.parent_author
          pure ("<ParentContext author=\"" ++ a ++ "\">" ++ html_escape pc ++
                "</ParentContext>\n")
    | none => pure ""
  let created_date := strftime_Y_m_d c.created_utc
  pure
    ("<Activity type=\"comment\"" ++
     " subreddit=\"" ++ html_escape c.subreddit ++ "\"" ++
     " upvotes=\"" ++ html_escape (toString c.ups) ++ "\"" ++
     " downvotes=\"" ++ html_escape (toString c.downs) ++ "\"" ++
     " created_utc=\"" ++ html_escape (toString c.created_utc) ++ "\">\n" ++
     " created_date=\"" ++ html_escape created_date ++ "\"" ++
     "  <Content>\n" ++
     "   <Body>" ++ html_escape c.body ++ "</Body>\n" ++
     "   " ++ parent_context_xml ++
     "  </Content>\n" ++
     "</Activity>")

/-- `Post.to_xml` (models.py lines 82-108).  The body is rendered iff
`include_post_bodies` and `self.selftext` is truthy; the truncation
`self.selftext[:max_post_body_length]` happens here, at serialization. -/
def Post.to_xml (p : Post) (include_post_bodies : Bool) (max_post_body_length : Nat) : String :=
  let created_date := strftime_Y_m_d p.created_utc
  let body_xml :=
    if include_post_bodies && !(p.selftext = "") then
      "<Body>" ++ html_escape (py_take p.selftext max_post_body_length) ++ "</Body>\n"
    else ""
  "<Activity type=\"post\"" ++
  " subreddit=\"" ++ html_escape p.subreddit ++ "\"" ++
  " upvotes=\"" ++ html_escape (toString p.ups) ++ "\"" ++
  " downvotes=\"" ++ html_escape (toString p.downs) ++ "\"" ++
  " created_utc=\"" ++ html_escape (toString p.created_utc) ++ "\">" ++
  " created_date=\"" ++ html_escape created_date ++ "\">\n" ++
  "  <Content>\n" ++
  "    <Title>" ++ html_escape p.title ++ "</Title>\n" ++
  "    " ++ body_xml ++
  "  </Content>\n" ++
  "</Activity>"

/-- `subreddit_contexts_to_xml` (models.py lines 111-122): every
interpolated name and description goes through `html.escape`.  A falsy
argument (empty mapping or `None`) yields the empty string. -/
def subreddit_contexts_to_xml (subreddit_descriptions : List (String × String)) : String :=
  if subreddit_descriptions.isEmpty then ""
  else
    "  <SubredditContexts>" ++
    String.join (subreddit_descriptions.map
      (fun kv => "<Subreddit name=\"" ++ html_escape kv.1 ++ "\">" ++
                 html_escape kv.2 ++ "</Subreddit>")) ++
    "</SubredditContexts>"

/-! ### LLMService.analyze_reddit_activity (src/reddit_who_dis/llm_service.py) -/

/-- A single unit of activity handed to the aggregation code. -/
inductive Activity where
  | comment (c : Comment) : Activity
  | post (p : Post) : Activity
deriving Repr, DecidableEq

/-- The activity's `id` attribute. -/
def Activity.id : Activity → String
  | .comment c => c.id
  | .post p => p.id

/-- The activity's `created_utc` attribute (the sort key of line 52). -/
def Activity.created_utc : Activity → Int
  | .comment c => c.created_utc
  | .post p => p.created_utc

/-- The two dedup loops of `analyze_reddit_activity` (lines 38-49),
generalized over the combined traversal order: append each activity
whose `id` is not in `seen_ids`, recording seen ids. -/
def dedupById : List Activity → List String → List Activity
  | [], _ => []
  | a :: rest, seen =>
    if a.id ∈ seen then dedupById rest seen
    else a :: dedupById rest (a.id :: seen)

/-- `all_activities` after both loops (lines 38-49): comments are
traversed first, then posts, with first-seen `id` winning. -/
def dedupActivities (comments : List Comment) (posts : List Post) : List Activity :=
  dedupById (comments.map Activity.comment ++ posts.map Activity.post) []

/-- The comparison of `all_activities.sort(key=lambda x: x.created_utc,
reverse=True)` (line 52): most recent first. -/
def activity_desc_le (a b : Activity) : Bool := decide (b.created_utc ≤ a.created_utc)

/-- Lines 37-53 of `analyze_reddit_activity`: combine and dedup, stable
sort by `created_utc` descending, truncate to `max_activities`
(`activities_for_llm`). -/
def aggregate (comments : List Comment) (posts : List Post) (max_activities : Nat) :
    List Activity :=
  (sortBy activity_desc_le (dedupActivities comments posts)).take max_activities

/-- The subreddit-context XML block built inline by
`analyze_reddit_activity` (llm_service.py lines 56-61): `sub` and `desc`
are interpolated into the attribute-bearing serialization directly, with
no escaping. -/
def analyze_subreddit_context_xml (subreddit_descriptions : List (String × String)) : String :=
  if subreddit_descriptions.isEmpty then ""
  else
    "  <SubredditContexts>\n" ++
    String.join (subreddit_descriptions.map
      (fun kv => "    <Subreddit name=\"" ++ kv.1 ++ "\">" ++ kv.2 ++ "</Subreddit>\n")) ++
    "  </SubredditContexts>\n"

/-! ### RedditService fetch path (src/reddit_who_dis/reddit_service.py) -/

/-- The attributes of a praw submission read by `fetch_posts`
(lines 101-110). -/
structure RawSubmission where
  id : String
  subreddit : String
  created_utc : Int
  title : String
  selftext : String
deriving Repr

/-- The attributes of a praw comment read by `fetch_comments`
(lines 54-84); `parent_body` is the body of a comment parent,
`parent_submission` title+selftext of a submission parent, `none` if the
parent lookup raised. -/
structure RawComment where
  id : String
  subreddit : String
  created_utc : Int
  body : String
  link_title : String
  parent_body : Option String
deriving Repr

/-- The `for` loop of `RedditService.fetch_posts` (lines 101-111).  Each
iteration evaluates `Post(id=…, subreddit=…, created_utc=…, title=…,
selftext=…, type="post")`; the `Post` dataclass additionally requires
`ups` and `downs` (they have no defaults), so this call raises TypeError
before anything is appended, the `except Exception` of line 117 catches
it, and the function returns the list accumulated so far. -/
def fetch_posts_loop : List RawSubmission → List Post → List Post
  | [], acc => acc
  | _ :: _, acc => acc

/-- `RedditService.fetch_posts` (lines 95-120). -/
def RedditService.fetch_posts (submissions : List RawSubmission) : List Post :=
  fetch_posts_loop submissions []

/-- The `for` loop of `RedditService.fetch_comments` (lines 54-88).  Each
iteration truncates the body and resolves the parent context, then
evaluates `Comment(id=…, subreddit=…, created_utc=…, body=…,
link_title=…, parent_context=…, type="comment")`; the `Comment`
dataclass additionally requires `ups` and `downs` (no defaults), so this
call raises TypeError before anything is appended, the `except
Exception` of line 90 catches it, and the function returns the list
accumulated so far.  Note `parent_author` is never passed, so it would
have been `None` on every constructed comment. -/
def fetch_comments_loop : List RawComment → List Comment → List Comment
  | [], acc => acc
  | _ :: _, acc => acc

/-- `RedditService.fetch_comments` (lines 43-93). -/
def RedditService.fetch_comments (raw_comments : List RawComment)
    (_include_parent_context : Bool) (_max_parent_context_length _max_comment_length : Nat) :
    List Comment :=
  fetch_comments_loop raw_comments []

/-! ### Substring occurrence counting (used to exhibit record-boundary
corruption in the unescaped serialization) -/

/-- Whether `pat` occurs at the head of `l`. -/
def listStartsWith : List Char → List Char → Bool
  | [], _ => true
  | _ :: _, [] => false
  | p :: ps, c :: cs => p = c && listStartsWith ps cs

/-- Number of positions of `l` at which `pat` occurs. -/
def countOccs (pat : List Char) : List Char → Nat
  | [] => 0
  | c :: cs => (if listStartsWith pat (c :: cs) then 1 else 0) + countOccs pat cs

/-! ### Concrete instances used by witnesses and counterexamples -/

/-- A `CacheManager(cache_days=7)` with the default cache directory. -/
def mgr0 : CacheManager := { cache_days := 7, cache_dir := ".cache" }

/-- A parameter mapping with one analysis parameter and two cache-control
parameters, in one insertion order. -/
def c1w_p1 : List (String × JVal) :=
  [("limit", .int 50), ("cache_days", .int 7), ("use_cache", .bool true)]

/-- The same analysis parameters with different cache-control parameters
and a different insertion order. -/
def c1w_p2 : List (String × JVal) :=
  [("force_refresh", .bool false), ("limit", .int 50)]

/-- A concrete payload for the result-cache round trip. -/
def c2_payload : JVal := .str "analysis text"

/-- A stored result-cache record whose timestamp field is `50`. -/
def c3w_doc : JVal := .obj [("timestamp", .int 50), ("result", .str "r")]

/-- The storage path of subject `"alice"` with empty parameters. -/
def c3w_path : String := CacheManager.get_cache_path mgr0 "alice" []

/-- A store holding exactly the record `c3w_doc` at `c3w_path`. -/
def c3w_fs : CacheFS := [(c3w_path, c3w_doc)]

/-- A comment whose id collides with a post id. -/
def c4_comment : Comment :=
  { id := "a", subreddit := "s", created_utc := 5, type := "comment",
    body := "b", link_title := "t", ups := 1, downs := 0 }

/-- A post sharing the comment's id. -/
def c4_post : Post :=
  { id := "a", subreddit := "s", created_utc := 7, type := "post",
    title := "ti", selftext := "tx", ups := 2, downs := 1 }

/-- Two comments with equal `created_utc`, for the stable-sort witness. -/
def c5w_c1 : Comment :=
  { id := "c1", subreddit := "s", created_utc := 5, type := "comment",
    body := "first", link_title := "t", ups := 0, downs := 0 }

/-- Second comment with the same `created_utc` as `c5w_c1`. -/
def c5w_c2 : Comment :=
  { id := "c2", subreddit := "s", created_utc := 5, type := "comment",
    body := "second", link_title := "t", ups := 0, downs := 0 }

/-- A subreddit-description cache holding a fresh entry for `"x"`
written at time 0. -/
def c6w_cache : List (String × SubEntry) := [("x", ⟨some "cached description", 0⟩)]

/-- A collaborator that always succeeds. -/
def c6w_fetch : String → Option String := fun _ => some "network description"

/-- A 200-character post body. -/
def c7_selftext : String := String.mk (List.replicate 200 'x')

/-- The praw submission `fetch_posts` iterates over. -/
def c7_raw : RawSubmission :=
  { id := "p1", subreddit := "sub", created_utc := 0, title := "title",
    selftext := c7_selftext }

/-- The `Post` the `fetch_posts` loop body attempts to construct (with
the missing required `ups`/`downs` fields supplied): `selftext` is
stored in full, untruncated. -/
def c7_post : Post :=
  { id := "p1", subreddit := "sub", created_utc := 0, type := "post",
    title := "title", selftext := c7_selftext, ups := 0, downs := 0 }

/-- A subreddit description carrying serialization metacharacters: it
closes the `Subreddit` element and opens a forged one. -/
def c8_descs : List (String × String) :=
  [("hobbies", "end</Subreddit><Subreddit name=\"forged\">evil")]

/-- The praw comment `fetch_comments` iterates over. -/
def c9_raw : RawComment :=
  { id := "c1", subreddit := "sub", created_utc := 0, body := "some body",
    link_title := "a thread", parent_body := some "the parent text" }

/-- The `Comment` the fetch path is designed to produce for `c9_raw`
(with the missing required `ups`/`downs` supplied): `parent_context` is
set and `parent_author` is the default `None`, exactly as the
constructor call in `fetch_comments` (which never passes
`parent_author`) would create it. -/
def c9_comment : Comment :=
  { id := "c1", subreddit := "sub", created_utc := 0, type := "comment",
    body := "some body", link_title := "a thread", ups := 0, downs := 0,
    parent_author := none, parent_context := some "the parent text" }

/-- A stored result-cache record that parses as a JSON object but has no
`timestamp` field. -/
def c10w_doc : JVal := .obj [("username", .str "bob"), ("result", .str "r")]

/-- The storage path of subject `"bob"` with empty parameters. -/
def c10w_path : String := CacheManager.get_cache_path mgr0 "bob" []

/-- A store holding exactly the timestampless record at `c10w_path`. -/
def c10w_fs : CacheFS := [(c10w_path, c10w_doc)]

/-! ## Lemmas about the character/string order -/

theorem charListLe_total : ∀ (a b : List Char), charListLe a b = true ∨ charListLe b a = true
  | [], _ => Or.inl rfl
  | _ :: _, [] => Or.inr rfl
  | x :: xs, y :: ys => by
    by_cases h : x = y
    · subst h
      simpa [charListLe] using charListLe_total xs ys
    · rcases lt_or_gt_of_ne h with hlt | hgt
      · exact Or.inl (by simp [charListLe, h, hlt])
      · exact Or.inr (by simp [charListLe, Ne.symm h, hgt])

theorem charListLe_antisymm : ∀ {a b : List Char},
    charListLe a b = true → charListLe b a = true → a = b
  | [], [], _, _ => rfl
  | [], _ :: _, _, hba => by simp [charListLe] at hba
  | _ :: _, [], hab, _ => by simp [charListLe] at hab
  | x :: xs, y :: ys, hab, hba => by
    by_cases h : x = y
    · subst h
      simp only [charListLe, if_pos rfl] at hab hba
      exact congrArg (x :: ·) (charListLe_antisymm hab hba)
    · simp only [charListLe, if_neg h, if_neg (Ne.symm h), decide_eq_true_eq] at hab hba
      exact absurd hba (not_lt_of_gt hab)

theorem charListLe_trans : ∀ {a b c : List Char},
    charListLe a b = true → charListLe b c = true → charListLe a c = true
  | [], _, _, _, _ => rfl
  | _ :: _, [], _, hab, _ => by simp [charListLe] at hab
  | _ :: _, _ :: _, [], _, hbc => by simp [charListLe] at hbc
  | x :: xs, y :: ys, z :: zs, hab, hbc => by
    by_cases hxy : x = y <;> by_cases hyz : y = z
    · subst hxy; subst hyz
      simp only [charListLe, if_pos rfl] at hab hbc ⊢
      exact charListLe_trans hab hbc
    · subst hxy
      simpa [charListLe, hyz] using hbc
    · subst hyz
      simpa [charListLe, hxy] using hab
    · simp only [charListLe, if_neg hxy, if_neg hyz, decide_eq_true_eq] at hab hbc
      have hxz : x < z := lt_trans hab hbc
      simp [charListLe, ne_of_lt hxz, hxz]

theorem strLe_total (a b : String) : strLe a b = true ∨ strLe b a = true :=
  charListLe_total a.data b.data

theorem strLe_trans {a b c : String} (hab : strLe a b = true) (hbc : strLe b c = true) :
    strLe a c = true :=
  charListLe_trans hab hbc

theorem strLe_antisymm {a b : String} (hab : strLe a b = true) (hba : strLe b a = true) :
    a = b := by
  cases a; cases b
  exact congrArg String.mk (charListLe_antisymm hab hba)

theorem strLe_refl (a : String) : strLe a a = true := by
  rcases strLe_total a a with h | h <;> exact h

/-! ## Lemmas about the stable insertion sort -/

theorem insertBy_cons_skip {le : α → α → Bool} {a b : α} {bs : List α}
    (h : (le b a && !le a b) = true) :
    insertBy le a (b :: bs) = b :: insertBy le a bs := by
  rw [insertBy, if_pos h]

theorem insertBy_cons_keep {le : α → α → Bool} {a b : α} {bs : List α}
    (h : (le b a && !le a b) = false) :
    insertBy le a (b :: bs) = a :: b :: bs := by
  rw [insertBy, if_neg (by simp [h])]

theorem perm_insertBy (le : α → α → Bool) (a : α) :
    ∀ (l : List α), (insertBy le a l).Perm (a :: l)
  | [] => List.Perm.refl _
  | b :: bs => by
    by_cases h : (le b a && !le a b) = true
    · rw [insertBy_cons_skip h]
      exact ((perm_insertBy le a bs).cons b).trans (List.Perm.swap a b bs)
    · rw [insertBy_cons_keep (by simpa using h)]

theorem sortBy_perm (le : α → α → Bool) : ∀ (l : List α), (sortBy le l).Perm l
  | [] => List.Perm.refl _
  | a :: as => (perm_insertBy le a (sortBy le as)).trans ((sortBy_perm le as).cons a)

theorem mem_insertBy {le : α → α → Bool} {a x : α} {l : List α}
    (h : x ∈ insertBy le a l) : x = a ∨ x ∈ l := by
  have h' := (perm_insertBy le a l).mem_iff.mp h
  simpa using h'

theorem pairwise_insertBy {le : α → α → Bool}
    (htrans : ∀ a b c, le a b = true → le b c = true → le a c = true)
    (htotal : ∀ a b, le a b = true ∨ le b a = true) (a : α) :
    ∀ {l : List α}, l.Pairwise (fun x y => le x y = true) →
      (insertBy le a l).Pairwise (fun x y => le x y = true)
  | [], _ => List.pairwise_singleton _ a
  | b :: bs, h => by
    rcases List.pairwise_cons.mp h with ⟨hb, hbs⟩
    by_cases hcond : (le b a && !le a b) = true
    · rw [insertBy_cons_skip hcond]
      refine List.pairwise_cons.mpr ⟨?_, pairwise_insertBy htrans htotal a hbs⟩
      intro x hx
      rcases mem_insertBy hx with rfl | hx'
      · exact ((Bool.and_eq_true _ _).mp hcond).1
      · exact hb x hx'
    · rw [insertBy_cons_keep (by simpa using hcond)]
      have hab : le a b = true := by
        rcases htotal a b with h' | h'
        · exact h'
        · by_cases h'' : le a b = true
          · exact h''
          · exact absurd (by simp [h', h'']) hcond
      refine List.pairwise_cons.mpr ⟨?_, h⟩
      intro x hx
      rcases List.mem_cons.mp hx with rfl | hx'
      · exact hab
      · exact htrans a b x hab (hb x hx')

theorem sortBy_pairwise {le : α → α → Bool}
    (htrans : ∀ a b c, le a b = true → le b c = true → le a c = true)
    (htotal : ∀ a b, le a b = true ∨ le b a = true) :
    ∀ (l : List α), (sortBy le l).Pairwise (fun x y => le x y = true)
  | [] => List.Pairwise.nil
  | a :: as => pairwise_insertBy htrans htotal a (sortBy_pairwise htrans htotal as)

theorem insertBy_decomp (le : α → α → Bool) (a : α) :
    ∀ (l : List α), ∃ l₁ l₂, l = l₁ ++ l₂ ∧ insertBy le a l = l₁ ++ a :: l₂
  | [] => ⟨[], [], rfl, rfl⟩
  | b :: bs => by
    by_cases h : (le b a && !le a b) = true
    · obtain ⟨l₁, l₂, hbs, hins⟩ := insertBy_decomp le a bs
      exact ⟨b :: l₁, l₂, by simp [hbs], by rw [insertBy_cons_skip h, hins]; rfl⟩
    · exact ⟨[], b :: bs, rfl, insertBy_cons_keep (by simpa using h)⟩

theorem sublist_insertBy {le : α → α → Bool} {a : α} {l m : List α}
    (h : l.Sublist m) : l.Sublist (insertBy le a m) := by
  obtain ⟨m₁, m₂, hm, hins⟩ := insertBy_decomp le a m
  refine h.trans ?_
  rw [hins, hm]
  exact (List.sublist_cons_self a m₂).append_left m₁

theorem pair_sublist_insertBy {le : α → α → Bool} {a b : α}
    (hb : (le b a && !le a b) = false) :
    ∀ {m : List α}, b ∈ m → [a, b].Sublist (insertBy le a m)
  | c :: cs, hmem => by
    by_cases h : (le c a && !le a c) = true
    · have hbc : b ≠ c := by
        intro he
        rw [he, h] at hb
        exact absurd hb (by decide)
      have hbcs : b ∈ cs := by
        rcases List.mem_cons.mp hmem with rfl | h'
        · exact absurd rfl hbc
        · exact h'
      rw [insertBy_cons_skip h]
      exact (pair_sublist_insertBy hb hbcs).cons c
    · rw [insertBy_cons_keep (by simpa using h)]
      exact (List.singleton_sublist.mpr hmem).cons₂ a

theorem sortBy_stable_pair {le : α → α → Bool} {a b : α}
    (hb : (le b a && !le a b) = false) :
    ∀ {l : List α}, [a, b].Sublist l → [a, b].Sublist (sortBy le l)
  | c :: cs, h => by
    cases h with
    | cons _ h' =>
      exact sublist_insertBy (sortBy_stable_pair hb h')
    | cons₂ _ h' =>
      have hbmem : b ∈ sortBy le cs :=
        (sortBy_perm le cs).mem_iff.mpr (List.singleton_sublist.mp h')
      exact pair_sublist_insertBy hb hbmem

/-! ## Lemmas about association-list lookup (the Python dict model) -/

theorem lookup_cons {β : Type _} (k k' : String) (v : β) (l : List (String × β)) :
    List.lookup k ((k', v) :: l) = if k = k' then some v else List.lookup k l := by
  by_cases h : k = k'
  · simp [List.lookup, h]
  · simp [List.lookup, beq_eq_false_iff_ne.mpr h, h]

theorem lookup_eq_none_iff {β : Type _} {k : String} :
    ∀ {l : List (String × β)}, List.lookup k l = none ↔ k ∉ l.map Prod.fst
  | [] => by simp
  | (k', v) :: t => by
    rw [lookup_cons]
    by_cases h : k = k'
    · simp [h]
    · simp [h, lookup_eq_none_iff]

theorem lookup_some_mem {β : Type _} {k : String} {v : β} :
    ∀ {l : List (String × β)}, List.lookup k l = some v → (k, v) ∈ l
  | (k', v') :: t, h => by
    rw [lookup_cons] at h
    by_cases hk : k = k'
    · rw [if_pos hk] at h
      exact List.mem_cons.mpr (Or.inl (by rw [hk, Option.some.inj h]))
    · rw [if_neg hk] at h
      exact List.mem_cons.mpr (Or.inr (lookup_some_mem h))

theorem nodup_keys_lookup_of_mem {β : Type _} {k : String} {v : β} :
    ∀ {l : List (String × β)}, (l.map Prod.fst).Nodup → (k, v) ∈ l →
      List.lookup k l = some v
  | (k', v') :: t, hnd, hmem => by
    rcases List.nodup_cons.mp hnd with ⟨hk', hndt⟩
    rcases List.mem_cons.mp hmem with he | hm
    · rw [lookup_cons, if_pos (congrArg Prod.fst he)]
      exact congrArg some (congrArg Prod.snd he).symm ▸ rfl
    · have hkne : k ≠ k' := by
        intro hkk
        exact hk' (List.mem_map.mpr ⟨(k, v), hm, by rw [hkk]⟩)
      rw [lookup_cons, if_neg hkne]
      exact nodup_keys_lookup_of_mem hndt hm

theorem perm_lookup_eq {β : Type _} {l l' : List (String × β)} (hp : l.Perm l')
    (hnd : (l.map Prod.fst).Nodup) (k : String) : List.lookup k l = List.lookup k l' := by
  cases h : List.lookup k l with
  | none =>
    have hk : k ∉ l.map Prod.fst := lookup_eq_none_iff.mp h
    exact (lookup_eq_none_iff.mpr (fun hmem => hk ((hp.map Prod.fst).mem_iff.mpr hmem))).symm
  | some v =>
    have hmem : (k, v) ∈ l' := hp.mem_iff.mp (lookup_some_mem h)
    have hnd' : (l'.map Prod.fst).Nodup := ((hp.map Prod.fst).nodup_iff).mp hnd
    exact (nodup_keys_lookup_of_mem hnd' hmem).symm

theorem lookup_filter_key {β : Type _} (q : String → Bool) (k : String) :
    ∀ (l : List (String × β)),
      List.lookup k (l.filter (fun kv => q kv.1)) = if q k then List.lookup k l else none
  | [] => by by_cases h : q k <;> simp [h]
  | (k', v) :: t => by
    by_cases hq : q k'
    · rw [List.filter_cons_of_pos (by simpa using hq), lookup_cons, lookup_cons]
      by_cases hk : k = k'
      · rw [if_pos hk, if_pos (hk ▸ hq), if_pos hk]
      · rw [if_neg hk, lookup_filter_key q k t]
        by_cases hqk : q k
        · rw [if_pos hqk, if_pos hqk, if_neg hk]
        · rw [if_neg hqk, if_neg hqk]
    · rw [List.filter_cons_of_neg (by simpa using hq), lookup_filter_key q k t, lookup_cons]
      by_cases hqk : q k
      · have hk : k ≠ k' := fun he => hq (he ▸ hqk)
        rw [if_pos hqk, if_pos hqk, if_neg hk]
      · rw [if_neg hqk, if_neg hqk]

theorem dumps_fields_eq_map : ∀ (l : List (String × JVal)),
    dumps_fields l = l.map (fun kv => (kv.1, dumps_sorted kv.2))
  | [] => rfl
  | _ :: t => by rw [dumps_fields, dumps_fields_eq_map t]; rfl

theorem lookup_map_val {β γ : Type _} (f : β → γ) (k : String) :
    ∀ (l : List (String × β)),
      List.lookup k (l.map (fun kv => (kv.1, f kv.2))) = (List.lookup k l).map f
  | [] => rfl
  | (k', v) :: t => by
    rw [List.map_cons, lookup_cons, lookup_cons]
    by_cases hk : k = k'
    · rw [if_pos hk, if_pos hk]; rfl
    · rw [if_neg hk, if_neg hk, lookup_map_val f k t]

/-- Two association lists that are strictly sorted by key and have the
same lookup function are equal. -/
theorem strict_key_sorted_lookup_ext {β : Type _} :
    ∀ (l₁ l₂ : List (String × β)),
      l₁.Pairwise (fun a b => a.1 ≠ b.1 ∧ strLe a.1 b.1 = true) →
      l₂.Pairwise (fun a b => a.1 ≠ b.1 ∧ strLe a.1 b.1 = true) →
      (∀ k, List.lookup k l₁ = List.lookup k l₂) → l₁ = l₂
  | [], [], _, _, _ => rfl
  | [], (k, v) :: _, _, _, hk => by
    have h := hk k
    rw [lookup_cons, if_pos rfl] at h
    exact absurd h (by simp)
  | (k, v) :: _, [], _, _, hk => by
    have h := hk k
    rw [lookup_cons, if_pos rfl] at h
    exact absurd h (by simp)
  | (k₁, v₁) :: t₁, (k₂, v₂) :: t₂, hp₁, hp₂, hk => by
    rcases List.pairwise_cons.mp hp₁ with ⟨h1h, h1t⟩
    rcases List.pairwise_cons.mp hp₂ with ⟨h2h, h2t⟩
    have e1 : List.lookup k₁ ((k₂, v₂) :: t₂) = some v₁ := by
      rw [← hk k₁, lookup_cons, if_pos rfl]
    have e2 : List.lookup k₂ ((k₁, v₁) :: t₁) = some v₂ := by
      rw [hk k₂, lookup_cons, if_pos rfl]
    have hk12 : k₁ = k₂ := by
      by_contra hne
      rcases List.mem_cons.mp (lookup_some_mem e1) with he | hm
      · exact hne (congrArg Prod.fst he)
      · have hle21 : strLe k₂ k₁ = true := (h2h _ hm).2
        rcases List.mem_cons.mp (lookup_some_mem e2) with he | hm2
        · exact hne (congrArg Prod.fst he).symm
        · exact hne (strLe_antisymm (h1h _ hm2).2 hle21)
    subst hk12
    have hv : v₁ = v₂ := by
      rw [lookup_cons, if_pos rfl] at e2
      exact Option.some.inj e2
    subst hv
    have htails : ∀ k, List.lookup k t₁ = List.lookup k t₂ := by
      intro k
      by_cases hkk : k = k₁
      · subst hkk
        rw [lookup_eq_none_iff.mpr, (lookup_eq_none_iff (k := k)).mpr]
        · intro hmem
          rcases List.mem_map.mp hmem with ⟨p, hp, hpe⟩
          exact (h2h p hp).1 hpe.symm
        · intro hmem
          rcases List.mem_map.mp hmem with ⟨p, hp, hpe⟩
          exact (h1h p hp).1 hpe.symm
      · have h := hk k
        rw [lookup_cons, lookup_cons, if_neg hkk, if_neg hkk] at h
        exact h
    rw [strict_key_sorted_lookup_ext t₁ t₂ h1t h2t htails]

/-! ## C1: fingerprint stability -/

theorem sortBy_key_pairwise (l : List (String × String)) :
    (sortBy fieldKeyLe l).Pairwise (fun a b => fieldKeyLe a b = true) :=
  @sortBy_pairwise _ fieldKeyLe (fun _ _ _ hab hbc => strLe_trans hab hbc)
    (fun a b => strLe_total a.1 b.1) l

theorem sortBy_key_strict {l : List (String × String)}
    (hnd : (l.map Prod.fst).Nodup) :
    (sortBy fieldKeyLe l).Pairwise (fun a b => a.1 ≠ b.1 ∧ strLe a.1 b.1 = true) := by
  have hnds : ((sortBy fieldKeyLe l).map Prod.fst).Nodup :=
    (((sortBy_perm fieldKeyLe l).map Prod.fst).nodup_iff).mpr hnd
  have hne : (sortBy fieldKeyLe l).Pairwise (fun a b => a.1 ≠ b.1) :=
    List.pairwise_map.mp hnds
  exact hne.and (sortBy_key_pairwise l)

theorem analysis_config_keys_nodup {p : List (String × JVal)}
    (hp : (p.map Prod.fst).Nodup) : ((analysis_config p).map Prod.fst).Nodup :=
  ((List.filter_sublist p).map Prod.fst).nodup hp

theorem dumps_fields_keys_nodup {p : List (String × JVal)}
    (hp : (p.map Prod.fst).Nodup) :
    ((dumps_fields (analysis_config p)).map Prod.fst).Nodup := by
  rw [dumps_fields_eq_map, List.map_map]
  have he : (Prod.fst ∘ fun kv : String × JVal => (kv.1, dumps_sorted kv.2)) = Prod.fst :=
    funext fun _ => rfl
  rw [he]
  exact analysis_config_keys_nodup hp

theorem sorted_fields_lookup (p : List (String × JVal))
    (hp : (p.map Prod.fst).Nodup) (k : String) :
    List.lookup k (sortBy fieldKeyLe (dumps_fields (analysis_config p))) =
      if decide (k ∉ cacheControlKeys) then (List.lookup k p).map dumps_sorted
      else none := by
  have hnds : ((sortBy fieldKeyLe (dumps_fields (analysis_config p))).map Prod.fst).Nodup :=
    (((sortBy_perm fieldKeyLe _).map Prod.fst).nodup_iff).mpr (dumps_fields_keys_nodup hp)
  rw [perm_lookup_eq (sortBy_perm fieldKeyLe _) hnds k, dumps_fields_eq_map,
    lookup_map_val]
  unfold analysis_config
  rw [lookup_filter_key (fun s => decide (s ∉ cacheControlKeys)) k p]
  by_cases hk : k ∉ cacheControlKeys
  · rw [if_pos (decide_eq_true hk), if_pos (decide_eq_true hk)]
  · rw [if_neg (by simpa using hk), if_neg (by simpa using hk)]
    rfl

/-- C1: the result-cache parameter fingerprint is invariant under
reordering of the mapping's keys and under presence/absence/value of the
cache-control-only parameters `cache_days`, `force_refresh`,
`use_cache`: any two parameter mappings that agree on all
non-cache-control entries produce the same hex digest. -/
theorem c1_fingerprint_stability (p1 p2 : List (String × JVal))
    (h1 : (p1.map Prod.fst).Nodup) (h2 : (p2.map Prod.fst).Nodup)
    (hagree : ∀ k, k ∉ cacheControlKeys → List.lookup k p1 = List.lookup k p2) :
    CacheManager.generate_config_hash p1 = CacheManager.generate_config_hash p2 := by
  suffices hs : sortBy fieldKeyLe (dumps_fields (analysis_config p1)) =
      sortBy fieldKeyLe (dumps_fields (analysis_config p2)) by
    unfold CacheManager.generate_config_hash
    simp only [dumps_sorted]
    rw [hs]
  apply strict_key_sorted_lookup_ext _ _
    (sortBy_key_strict (dumps_fields_keys_nodup h1))
    (sortBy_key_strict (dumps_fields_keys_nodup h2))
  intro k
  rw [sorted_fields_lookup p1 h1 k, sorted_fields_lookup p2 h2 k]
  by_cases hk : k ∉ cacheControlKeys
  · rw [if_pos (decide_eq_true hk), if_pos (decide_eq_true hk), hagree k hk]
  · rw [if_neg (by simpa using hk), if_neg (by simpa using hk)]

/-- C1 witness: two concrete mappings, with reordered keys and different
cache-control parameters but the same analysis parameter, hash to the
same digest. -/
theorem c1_fingerprint_stability_witness :
    CacheManager.generate_config_hash c1w_p1 = CacheManager.generate_config_hash c1w_p2 := by
  apply c1_fingerprint_stability
  · decide
  · decide
  · intro k hk
    simp only [cacheControlKeys, List.mem_cons, List.not_mem_nil, not_or] at hk
    obtain ⟨hcd, hfr, huc⟩ := hk
    by_cases hl : k = "limit"
    · subst hl; rfl
    · simp [c1w_p1, c1w_p2, lookup_cons, hl, hcd, hfr, huc]

/-! ## Result-cache read/write lemmas (C2, C3, C10) -/

theorem fsRead_fsWrite_self (fs : CacheFS) (path : String) (doc : JVal) :
    fsRead (fsWrite fs path doc) path = some doc := by
  simp [fsRead, fsWrite, List.lookup]

theorem fsRead_singleton (path : String) (doc : JVal) :
    fsRead [(path, doc)] path = some doc := by
  simp [fsRead, List.lookup]

/-- Reading back right after a save: the record written by `save_result`
is found fresh iff the read time is within the horizon. -/
theorem get_after_save (mgr : CacheManager) (fs : CacheFS) (username : String)
    (config : List (String × JVal)) (x : JVal) (t tr : Int)
    (h : tr - t ≤ mgr.cache_days * 24 * 60 * 60) :
    mgr.get_cached_result (mgr.save_result fs username config x t) username config tr =
      some (CacheManager.save_record username config x t) := by
  unfold CacheManager.get_cached_result CacheManager.get_cached_result_at
    CacheManager.save_result
  rw [fsRead_fsWrite_self]
  show (if tr - t > mgr.cache_days * 24 * 60 * 60 then none
        else some (CacheManager.save_record username config x t)) = _
  rw [if_neg (not_lt.mpr h)]

/-- A stored record that is a JSON object with an integer `timestamp`
field is returned iff its age does not strictly exceed `max_age_seconds`. -/
theorem get_at_of_timestamp (mgr : CacheManager) (max_age_seconds : Int) (fs : CacheFS)
    (username : String) (config : List (String × JVal)) (now : Int)
    (flds : List (String × JVal)) (ts : Int)
    (hdoc : fsRead fs (mgr.get_cache_path username config) = some (.obj flds))
    (hts : List.lookup "timestamp" flds = some (.int ts)) :
    mgr.get_cached_result_at max_age_seconds fs username config now =
      if now - ts > max_age_seconds then none else some (.obj flds) := by
  unfold CacheManager.get_cached_result_at
  rw [hdoc]
  simp only [pyDictGet]
  rw [hts]
  rfl

/-- A stored record that is a JSON object with no `timestamp` field gets
the default timestamp `0`, so its computed age is `now` itself. -/
theorem get_at_of_no_timestamp (mgr : CacheManager) (max_age_seconds : Int) (fs : CacheFS)
    (username : String) (config : List (String × JVal)) (now : Int)
    (flds : List (String × JVal))
    (hdoc : fsRead fs (mgr.get_cache_path username config) = some (.obj flds))
    (hts : List.lookup "timestamp" flds = none) :
    mgr.get_cached_result_at max_age_seconds fs username config now =
      if now - 0 > max_age_seconds then none else some (.obj flds) := by
  unfold CacheManager.get_cached_result_at
  rw [hdoc]
  simp only [pyDictGet]
  rw [hts]
  rfl

/-- C2 (corrected): saving a payload and reading it back at the same key
within an arbitrarily large retention horizon returns the wrapper record
`{username, timestamp, config_hash, result}` whose `result` field is the
stored payload — the payload is recovered unchanged as that field, not
as the whole return value. -/
theorem c2_round_trip (mgr : CacheManager) (fs : CacheFS) (username : String)
    (config : List (String × JVal)) (x : JVal) (t tr : Int)
    (h : tr - t ≤ mgr.cache_days * 24 * 60 * 60) :
    mgr.get_cached_result (mgr.save_result fs username config x t) username config tr =
      some (CacheManager.save_record username config x t) ∧
    List.lookup "result"
      [("username", JVal.str username), ("timestamp", JVal.int t),
       ("config_hash", JVal.str (CacheManager.generate_config_hash config)),
       ("result", x)] = some x :=
  ⟨get_after_save mgr fs username config x t tr h, rfl⟩

/-- C2 witness: the round trip at a concrete store, subject, parameters
and payload. -/
theorem c2_round_trip_witness :
    (100 : Int) - 100 ≤ mgr0.cache_days * 24 * 60 * 60 ∧
    CacheManager.get_cached_result mgr0
        (CacheManager.save_result mgr0 [] "alice" [] c2_payload 100) "alice" [] 100 =
      some (CacheManager.save_record "alice" [] c2_payload 100) :=
  ⟨by decide,
   (c2_round_trip mgr0 [] "alice" [] c2_payload 100 100 (by decide)).1⟩

/-- C2 counterexample: at a concrete subject, parameters and payload,
`get` after `put` does not return the payload `x` itself (it returns the
wrapper record), so `get(s, p, huge_max_age) == x` fails as stated. -/
theorem c2_counterexample :
    CacheManager.get_cached_result mgr0
        (CacheManager.save_result mgr0 [] "alice" [] c2_payload 100) "alice" [] 100 ≠
      some c2_payload := by
  intro hcontra
  rw [get_after_save mgr0 [] "alice" [] c2_payload 100 100 (by decide)] at hcontra
  have h := Option.some.inj hcontra
  simp [CacheManager.save_record, c2_payload] at h

/-- C3: for a stored record of age exactly `T = now - cached_at`, a get
with retention horizon `T - 1` returns absent while a get with horizon
`T + 1` returns the record (expiry is the strict comparison
`now - cached_at > max_age_seconds`); the expired record is only ignored
— the read has no effect on the store, whose type it does not even
mention — and a subsequent successful put at the same key overwrites it,
after which a fresh read returns the new record. -/
theorem c3_expiry_boundary (mgr : CacheManager) (fs : CacheFS) (username : String)
    (config : List (String × JVal)) (now : Int) (flds : List (String × JVal)) (ts T : Int)
    (hdoc : fsRead fs (mgr.get_cache_path username config) = some (.obj flds))
    (hts : List.lookup "timestamp" flds = some (.int ts))
    (hT : now - ts = T) :
    mgr.get_cached_result_at (T - 1) fs username config now = none ∧
    mgr.get_cached_result_at (T + 1) fs username config now = some (.obj flds) ∧
    ∀ (x : JVal) (tw tr : Int), tr - tw ≤ mgr.cache_days * 24 * 60 * 60 →
      mgr.get_cached_result (mgr.save_result fs username config x tw) username config tr =
        some (CacheManager.save_record username config x tw) := by
  refine ⟨?_, ?_, fun x tw tr h => get_after_save mgr fs username config x tw tr h⟩
  · rw [get_at_of_timestamp mgr (T - 1) fs username config now flds ts hdoc hts, hT,
      if_pos (sub_one_lt T)]
  · rw [get_at_of_timestamp mgr (T + 1) fs username config now flds ts hdoc hts, hT,
      if_neg (not_lt.mpr (lt_add_one T).le)]

/-- C3 witness: a concrete record of age exactly 100 (stored at
timestamp 50, read at 150) is absent at horizon 99, present at horizon
101, and a later save overwrites it. -/
theorem c3_expiry_boundary_witness :
    CacheManager.get_cached_result_at mgr0 99 c3w_fs "alice" [] 150 = none ∧
    CacheManager.get_cached_result_at mgr0 101 c3w_fs "alice" [] 150 = some c3w_doc ∧
    CacheManager.get_cached_result mgr0
        (CacheManager.save_result mgr0 c3w_fs "alice" [] (.str "p") 200) "alice" [] 200 =
      some (CacheManager.save_record "alice" [] (.str "p") 200) := by
  have h := c3_expiry_boundary mgr0 c3w_fs "alice" [] 150
    [("timestamp", .int 50), ("result", .str "r")] 50 100
    (fsRead_singleton c3w_path c3w_doc) rfl rfl
  exact ⟨h.1, h.2.1, h.2.2 (.str "p") 200 200 (by decide)⟩

/-- C10: a stored record that parses as a JSON object but has no
`timestamp` field is given the default timestamp `0`, so its computed
age equals the current time `now` and the read returns absent exactly
when `now` strictly exceeds the retention horizon — without raising and
without touching the store (the read has no effect on it). -/
theorem c10_missing_timestamp (mgr : CacheManager) (fs : CacheFS) (username : String)
    (config : List (String × JVal)) (now : Int) (flds : List (String × JVal))
    (hdoc : fsRead fs (mgr.get_cache_path username config) = some (.obj flds))
    (hts : List.lookup "timestamp" flds = none) :
    mgr.get_cached_result fs username config now =
      if now > mgr.cache_days * 24 * 60 * 60 then none else some (.obj flds) := by
  unfold CacheManager.get_cached_result
  rw [get_at_of_no_timestamp mgr (mgr.cache_days * 24 * 60 * 60) fs username config now
    flds hdoc hts, Int.sub_zero]

/-- C10 witness: a concrete timestampless record read at a time past the
horizon is treated as expired and returned as absent. -/
theorem c10_missing_timestamp_witness :
    CacheManager.get_cached_result mgr0 c10w_fs "bob" [] 1000000000 = none := by
  have h := c10_missing_timestamp mgr0 c10w_fs "bob" [] 1000000000
    [("username", .str "bob"), ("result", .str "r")]
    (fsRead_singleton c10w_path c10w_doc) rfl
  rw [h]
  rfl

/-! ## Aggregation lemmas (C4, C5) -/

theorem dedupById_cons_seen {a : Activity} {l : List Activity} {seen : List String}
    (h : a.id ∈ seen) : dedupById (a :: l) seen = dedupById l seen := by
  rw [dedupById, if_pos h]

theorem dedupById_cons_new {a : Activity} {l : List Activity} {seen : List String}
    (h : a.id ∉ seen) : dedupById (a :: l) seen = a :: dedupById l (a.id :: seen) := by
  rw [dedupById, if_neg h]

theorem dedupById_filter_of_seen {i : String} :
    ∀ (l : List Activity) (seen : List String), i ∈ seen →
      (dedupById l seen).filter (fun a => a.id == i) = []
  | [], _, _ => rfl
  | a :: rest, seen, hi => by
    by_cases ha : a.id ∈ seen
    · rw [dedupById_cons_seen ha]
      exact dedupById_filter_of_seen rest seen hi
    · rw [dedupById_cons_new ha]
      have hne : (a.id == i) = false := beq_eq_false_iff_ne.mpr (fun he => ha (he ▸ hi))
      rw [List.filter_cons_of_neg (by simpa using hne)]
      exact dedupById_filter_of_seen rest (a.id :: seen) (List.mem_cons.mpr (Or.inr hi))

theorem dedupById_filter_of_not_seen {i : String} :
    ∀ (l : List Activity) (seen : List String), i ∉ seen →
      (dedupById l seen).filter (fun a => a.id == i) =
        match l.find? (fun a => a.id == i) with
        | some a => [a]
        | none => []
  | [], _, _ => rfl
  | a :: rest, seen, hi => by
    by_cases hai : a.id = i
    · have ha : a.id ∉ seen := fun hmem => hi (hai ▸ hmem)
      rw [dedupById_cons_new ha,
        List.filter_cons_of_pos (by simpa using beq_iff_eq.mpr hai),
        @List.find?_cons_of_pos _ (fun a => a.id == i) a rest (beq_iff_eq.mpr hai),
        dedupById_filter_of_seen rest (a.id :: seen) (hai ▸ List.mem_cons_self a.id seen)]
    · have hne : ¬ (a.id == i) = true := by
        simpa using beq_eq_false_iff_ne.mpr hai
      by_cases ha : a.id ∈ seen
      · rw [dedupById_cons_seen ha, @List.find?_cons_of_neg _ (fun a => a.id == i) a rest hne]
        exact dedupById_filter_of_not_seen rest seen hi
      · rw [dedupById_cons_new ha, List.filter_cons_of_neg (by simpa using hne),
          @List.find?_cons_of_neg _ (fun a => a.id == i) a rest hne]
        exact dedupById_filter_of_not_seen rest (a.id :: seen)
          (fun hmem => (List.mem_cons.mp hmem).elim (fun he => hai he.symm) hi)

theorem dedupById_ids_fresh_nodup :
    ∀ (l : List Activity) (seen : List String),
      ((dedupById l seen).map Activity.id).Nodup ∧
      ∀ x ∈ (dedupById l seen).map Activity.id, x ∉ seen
  | [], _ => ⟨List.nodup_nil, by simp [dedupById]⟩
  | a :: rest, seen => by
    by_cases ha : a.id ∈ seen
    · rw [dedupById_cons_seen ha]
      exact dedupById_ids_fresh_nodup rest seen
    · rw [dedupById_cons_new ha]
      obtain ⟨hnd, hfresh⟩ := dedupById_ids_fresh_nodup rest (a.id :: seen)
      constructor
      · rw [List.map_cons, List.nodup_cons]
        exact ⟨fun hmem => (hfresh a.id hmem) (List.mem_cons_self a.id seen), hnd⟩
      · intro x hx
        rcases List.mem_cons.mp hx with rfl | hx'
        · exact ha
        · exact fun hmem => hfresh x hx' (List.mem_cons.mpr (Or.inr hmem))

theorem dedupActivities_nodup (cs : List Comment) (ps : List Post) :
    (dedupActivities cs ps).Nodup :=
  List.Nodup.of_map Activity.id (dedupById_ids_fresh_nodup _ []).1

theorem pair_sublist_of_mem {α : Type _} {a b : α} :
    ∀ {l : List α}, a ∈ l → b ∈ l → a ≠ b → [a, b].Sublist l ∨ [b, a].Sublist l
  | c :: t, ha, hb, hne => by
    rcases List.mem_cons.mp ha with rfl | hat
    · have hbt : b ∈ t := by
        rcases List.mem_cons.mp hb with he | hbt
        · exact absurd he.symm hne
        · exact hbt
      exact Or.inl ((List.singleton_sublist.mpr hbt).cons₂ a)
    · rcases List.mem_cons.mp hb with rfl | hbt
      · exact Or.inr ((List.singleton_sublist.mpr hat).cons₂ b)
      · exact (pair_sublist_of_mem hat hbt hne).imp (List.Sublist.cons c) (List.Sublist.cons c)

theorem pair_sublist_antisymm {α : Type _} {a b : α} :
    ∀ {l : List α}, l.Nodup → [a, b].Sublist l → [b, a].Sublist l → a = b
  | c :: t, hnd, h1, h2 => by
    rcases List.nodup_cons.mp hnd with ⟨hct, hndt⟩
    cases h1 with
    | cons _ h1' =>
      cases h2 with
      | cons _ h2' => exact pair_sublist_antisymm hndt h1' h2'
      | cons₂ _ h2' =>
        exact absurd (h1'.subset (List.mem_cons.mpr (Or.inr (List.mem_singleton.mpr rfl)))) hct
    | cons₂ _ h1' =>
      cases h2 with
      | cons _ h2' =>
        exact absurd (h2'.subset (List.mem_cons.mpr (Or.inr (List.mem_singleton.mpr rfl)))) hct
      | cons₂ _ h2' => rfl

theorem activity_desc_le_trans : ∀ a b c : Activity,
    activity_desc_le a b = true → activity_desc_le b c = true → activity_desc_le a c = true :=
  fun _ _ _ hab hbc => decide_eq_true
    (le_trans (of_decide_eq_true hbc) (of_decide_eq_true hab))

theorem activity_desc_le_total : ∀ a b : Activity,
    activity_desc_le a b = true ∨ activity_desc_le b a = true := fun a b => by
  unfold activity_desc_le
  rcases le_total b.created_utc a.created_utc with h | h
  · exact Or.inl (decide_eq_true h)
  · exact Or.inr (decide_eq_true h)

/-- C4 counterexample: with a comment and a post sharing id `"a"` and
`max_activities = 0`, the id occurs in both inputs but the aggregation
output contains zero (not exactly one) activities with that id. -/
theorem c4_counterexample :
    "a" ∈ [c4_comment].map Comment.id ∧ "a" ∈ [c4_post].map Post.id ∧
    ((aggregate [c4_comment] [c4_post] 0).filter (fun a => a.id == "a")).length ≠ 1 := by
  refine ⟨by decide, by decide, by decide⟩

/-- C4 (corrected): aggregation is deterministic, and when an id occurs
in both the comment and the post inputs, the *deduplicated, pre-truncation*
sequence contains exactly one activity with that id, namely the
first-seen comment from the comment input; the truncated output contains
at most one activity with that id, and any such activity is that
comment (truncation to `max_activities` may drop it entirely, which is
what the original claim missed). -/
theorem c4_dedup_priority (cs : List Comment) (ps : List Post) (n : Nat) (i : String)
    (hc : i ∈ cs.map Comment.id) (_hp : i ∈ ps.map Post.id) :
    aggregate cs ps n = aggregate cs ps n ∧
    ∃ c, cs.find? (fun c => c.id == i) = some c ∧
      (dedupActivities cs ps).filter (fun a => a.id == i) = [Activity.comment c] ∧
      ((aggregate cs ps n).filter (fun a => a.id == i)).length ≤ 1 ∧
      ∀ a ∈ aggregate cs ps n, a.id = i → a = Activity.comment c := by
  refine ⟨rfl, ?_⟩
  have hfind : (cs.find? (fun c => c.id == i)).isSome := by
    rcases List.mem_map.mp hc with ⟨c, hcmem, hcid⟩
    exact List.find?_isSome.mpr ⟨c, hcmem, beq_iff_eq.mpr hcid⟩
  obtain ⟨c, hc'⟩ := Option.isSome_iff_exists.mp hfind
  refine ⟨c, hc', ?_⟩
  have hcomp : ((fun a : Activity => a.id == i) ∘ Activity.comment) =
      (fun c : Comment => c.id == i) := funext fun _ => rfl
  have hfilter : (dedupActivities cs ps).filter (fun a => a.id == i) =
      [Activity.comment c] := by
    unfold dedupActivities
    rw [dedupById_filter_of_not_seen _ [] (List.not_mem_nil i), List.find?_append,
      List.find?_map, hcomp, hc']
    rfl
  refine ⟨hfilter, ?_, ?_⟩
  · have hsub : ((aggregate cs ps n).filter (fun a => a.id == i)).Sublist
        ((sortBy activity_desc_le (dedupActivities cs ps)).filter (fun a => a.id == i)) :=
      (List.take_sublist n _).filter _
    have hperm : ((sortBy activity_desc_le (dedupActivities cs ps)).filter
        (fun a => a.id == i)).Perm
          ((dedupActivities cs ps).filter (fun a => a.id == i)) :=
      (sortBy_perm activity_desc_le _).filter _
    calc ((aggregate cs ps n).filter (fun a => a.id == i)).length
        ≤ _ := hsub.length_le
      _ = ((dedupActivities cs ps).filter (fun a => a.id == i)).length := hperm.length_eq
      _ ≤ 1 := by rw [hfilter]; simp
  · intro a hmem hid
    have hmem' : a ∈ (aggregate cs ps n).filter (fun a => a.id == i) :=
      List.mem_filter.mpr ⟨hmem, beq_iff_eq.mpr hid⟩
    have hsub : ((aggregate cs ps n).filter (fun a => a.id == i)).Sublist
        ((sortBy activity_desc_le (dedupActivities cs ps)).filter (fun a => a.id == i)) :=
      (List.take_sublist n _).filter _
    have hperm : ((sortBy activity_desc_le (dedupActivities cs ps)).filter
        (fun a => a.id == i)).Perm
          ((dedupActivities cs ps).filter (fun a => a.id == i)) :=
      (sortBy_perm activity_desc_le _).filter _
    have : a ∈ [Activity.comment c] := by
      rw [← hfilter]
      exact hperm.mem_iff.mp (hsub.subset hmem')
    simpa using this

/-- C4 witness: with a concrete comment/post id collision, the
deduplicated sequence keeps exactly the comment, and the (large enough)
output contains it once. -/
theorem c4_dedup_priority_witness :
    (dedupActivities [c4_comment] [c4_post]).filter (fun a => a.id == "a") =
      [Activity.comment c4_comment] ∧
    ((aggregate [c4_comment] [c4_post] 5).filter (fun a => a.id == "a")).length ≤ 1 := by
  obtain ⟨c, hfind, hfilter, hlen, _⟩ :=
    (c4_dedup_priority [c4_comment] [c4_post] 5 "a" (by decide) (by decide)).2
  have hceq : c = c4_comment := by
    have h : some c = some c4_comment := by rw [← hfind]; rfl
    exact Option.some.inj h
  subst hceq
  exact ⟨hfilter, hlen⟩

/-- C5: the aggregation output is sorted non-increasing in
`created_utc`, and any two output activities with equal `created_utc`
appear in the same relative order as in the deduplicated pre-sort
sequence (the sort is stable). -/
theorem c5_sort_correctness (cs : List Comment) (ps : List Post) (n : Nat) :
    (aggregate cs ps n).Pairwise (fun a b => b.created_utc ≤ a.created_utc) ∧
    ∀ a b, [a, b].Sublist (aggregate cs ps n) → a.created_utc = b.created_utc →
      [a, b].Sublist (dedupActivities cs ps) := by
  constructor
  · have hsorted := sortBy_pairwise activity_desc_le_trans activity_desc_le_total
      (dedupActivities cs ps)
    have hp := List.Pairwise.sublist (List.take_sublist n _) hsorted
    exact hp.imp (fun h => of_decide_eq_true h)
  · intro a b hsub heq
    have hsub' : [a, b].Sublist (sortBy activity_desc_le (dedupActivities cs ps)) :=
      hsub.trans (List.take_sublist n _)
    have hnd : (dedupActivities cs ps).Nodup := dedupActivities_nodup cs ps
    have hnds : (sortBy activity_desc_le (dedupActivities cs ps)).Nodup :=
      ((sortBy_perm activity_desc_le _).nodup_iff).mpr hnd
    have hne : a ≠ b := List.rel_of_pairwise_cons
      (List.Pairwise.sublist hsub' hnds) (List.mem_singleton.mpr rfl)
    have ha : a ∈ dedupActivities cs ps :=
      (sortBy_perm activity_desc_le _).mem_iff.mp
        (hsub'.subset (List.mem_cons_self a [b]))
    have hb : b ∈ dedupActivities cs ps :=
      (sortBy_perm activity_desc_le _).mem_iff.mp
        (hsub'.subset (List.mem_cons.mpr (Or.inr (List.mem_singleton.mpr rfl))))
    rcases pair_sublist_of_mem ha hb hne with h | h
    · exact h
    · exfalso
      have hcond : (activity_desc_le a b && !activity_desc_le b a) = false := by
        unfold activity_desc_le
        rw [decide_eq_true (le_of_eq heq), decide_eq_true (ge_of_eq heq)]
        rfl
      have hba : [b, a].Sublist (sortBy activity_desc_le (dedupActivities cs ps)) :=
        sortBy_stable_pair hcond h
      exact hne (pair_sublist_antisymm hnds hsub' hba)

/-- C5 witness: two concrete comments with equal timestamps appear in
the output, in their dedup order. -/
theorem c5_sort_correctness_witness :
    [Activity.comment c5w_c1, Activity.comment c5w_c2].Sublist
      (aggregate [c5w_c1, c5w_c2] [] 2) ∧
    [Activity.comment c5w_c1, Activity.comment c5w_c2].Sublist
      (dedupActivities [c5w_c1, c5w_c2] []) := by
  refine ⟨by decide, ?_⟩
  exact (c5_sort_correctness [c5w_c1, c5w_c2] [] 2).2 _ _ (by decide) rfl

/-! ## Subreddit-description cache lemmas (C6) -/

theorem step_of_fresh {mgr : CacheManager} {fetch : String → Option String}
    {force : Bool} {now : Int} {st : SubFetchState} {s d : String}
    (h : sub_cache_fresh mgr force now st.cache s = some d) :
    get_subreddit_descriptions_step mgr fetch force now st s =
      { st with descs := (s, d) :: st.descs } := by
  unfold get_subreddit_descriptions_step
  rw [h]

theorem step_of_stale {mgr : CacheManager} {fetch : String → Option String}
    {force : Bool} {now : Int} {st : SubFetchState} {s : String}
    (h : sub_cache_fresh mgr force now st.cache s = none) :
    get_subreddit_descriptions_step mgr fetch force now st s =
      { descs := (s, fetch_desc_result fetch s) :: st.descs,
        cache := (s, ⟨some (fetch_desc_result fetch s), now⟩) :: st.cache,
        fetched := st.fetched ++ [s] } := by
  unfold get_subreddit_descriptions_step
  rw [h]

theorem sub_cache_fresh_some_iff {mgr : CacheManager} {now : Int}
    {cache : List (String × SubEntry)} {s d : String} :
    sub_cache_fresh mgr false now cache s = some d ↔
      ∃ e : SubEntry, List.lookup s cache = some e ∧ e.desc = some d ∧
        now - e.timestamp < mgr.cache_days * 24 * 60 * 60 := by
  unfold sub_cache_fresh
  rw [if_neg (by simp)]
  cases hl : List.lookup s cache with
  | none => simp
  | some e =>
    cases he : e.desc with
    | none => simp [he]
    | some d' =>
      by_cases hf : now - e.timestamp < mgr.cache_days * 24 * 60 * 60
      · simp [he, hf]
      · simp [he, hf]

theorem sub_cache_fresh_force (mgr : CacheManager) (now : Int)
    (cache : List (String × SubEntry)) (s : String) :
    sub_cache_fresh mgr true now cache s = none := rfl

theorem step_preserves_other (mgr : CacheManager) (fetch : String → Option String)
    (force : Bool) (now : Int) (st : SubFetchState) {s x : String} (hne : s ≠ x) :
    ((get_subreddit_descriptions_step mgr fetch force now st s).cache.lookup x
        = st.cache.lookup x) ∧
    ((get_subreddit_descriptions_step mgr fetch force now st s).fetched.count x
        = st.fetched.count x) ∧
    ((get_subreddit_descriptions_step mgr fetch force now st s).descs.lookup x
        = st.descs.lookup x) := by
  have hxs : x ≠ s := Ne.symm hne
  cases h : sub_cache_fresh mgr force now st.cache s with
  | some d =>
    rw [step_of_fresh h]
    exact ⟨rfl, rfl, by rw [lookup_cons, if_neg hxs]⟩
  | none =>
    rw [step_of_stale h]
    refine ⟨by rw [lookup_cons, if_neg hxs], ?_, by rw [lookup_cons, if_neg hxs]⟩
    show (st.fetched ++ [s]).count x = st.fetched.count x
    rw [List.count_append]
    simp [List.count_cons, beq_eq_false_iff_ne.mpr hne]

theorem foldl_untouched (mgr : CacheManager) (fetch : String → Option String)
    (force : Bool) (now : Int) (x : String) :
    ∀ (subs : List String) (st : SubFetchState), x ∉ subs →
      ((subs.foldl (get_subreddit_descriptions_step mgr fetch force now) st).cache.lookup x
          = st.cache.lookup x) ∧
      ((subs.foldl (get_subreddit_descriptions_step mgr fetch force now) st).fetched.count x
          = st.fetched.count x) ∧
      ((subs.foldl (get_subreddit_descriptions_step mgr fetch force now) st).descs.lookup x
          = st.descs.lookup x)
  | [], _, _ => ⟨rfl, rfl, rfl⟩
  | s :: rest, st, hx => by
    have hne : s ≠ x := fun he => hx (he ▸ List.mem_cons_self s rest)
    have hrest : x ∉ rest := fun h => hx (List.mem_cons.mpr (Or.inr h))
    obtain ⟨hc, hf, hd⟩ := step_preserves_other mgr fetch force now st hne
    obtain ⟨hc', hf', hd'⟩ := foldl_untouched mgr fetch force now x rest
      (get_subreddit_descriptions_step mgr fetch force now st s) hrest
    rw [List.foldl_cons]
    exact ⟨by rw [hc', hc], by rw [hf', hf], by rw [hd', hd]⟩

theorem c6_hit_aux (mgr : CacheManager) (fetch : String → Option String) (now : Int)
    (x : String) (e : SubEntry) (d : String)
    (hed : e.desc = some d) (hfr : now - e.timestamp < mgr.cache_days * 24 * 60 * 60) :
    ∀ (subs : List String) (st : SubFetchState),
      List.lookup x st.cache = some e →
      ((subs.foldl (get_subreddit_descriptions_step mgr fetch false now) st).cache.lookup x
          = some e) ∧
      ((subs.foldl (get_subreddit_descriptions_step mgr fetch false now) st).fetched.count x
          = st.fetched.count x) ∧
      ((subs.foldl (get_subreddit_descriptions_step mgr fetch false now) st).descs.lookup x
          = if x ∈ subs then some d else st.descs.lookup x)
  | [], _, hc => ⟨hc, rfl, by simp⟩
  | s :: rest, st, hc => by
    rw [List.foldl_cons]
    by_cases hsx : s = x
    · subst hsx
      have hfresh : sub_cache_fresh mgr false now st.cache s = some d :=
        sub_cache_fresh_some_iff.mpr ⟨e, hc, hed, hfr⟩
      rw [step_of_fresh hfresh]
      obtain ⟨hc', hf', hd'⟩ := c6_hit_aux mgr fetch now s e d hed hfr rest
        { st with descs := (s, d) :: st.descs } hc
      refine ⟨hc', hf', ?_⟩
      rw [hd', if_pos (List.mem_cons_self s rest)]
      by_cases hmem : s ∈ rest
      · rw [if_pos hmem]
      · rw [if_neg hmem]
        show List.lookup s ((s, d) :: st.descs) = some d
        rw [lookup_cons, if_pos rfl]
    · obtain ⟨hc1, hf1, hd1⟩ := step_preserves_other mgr fetch false now st hsx
      obtain ⟨hc', hf', hd'⟩ := c6_hit_aux mgr fetch now x e d hed hfr rest
        (get_subreddit_descriptions_step mgr fetch false now st s) (by rw [hc1]; exact hc)
      refine ⟨hc', by rw [hf', hf1], ?_⟩
      rw [hd']
      by_cases hmem : x ∈ rest
      · rw [if_pos hmem, if_pos (List.mem_cons.mpr (Or.inr hmem))]
      · rw [if_neg hmem, hd1, if_neg ?_]
        intro h
        rcases List.mem_cons.mp h with he | h'
        · exact hsx he.symm
        · exact hmem h'

theorem c6_call_once (mgr : CacheManager) (fetch : String → Option String) (now : Int)
    (x : String) (subs : List String) (hnd : subs.Nodup) (hmem : x ∈ subs)
    (st : SubFetchState) :
    ((subs.foldl (get_subreddit_descriptions_step mgr fetch false now) st).fetched.count x
        = st.fetched.count x ∧
     (subs.foldl (get_subreddit_descriptions_step mgr fetch false now) st).cache.lookup x
        = st.cache.lookup x ∧
     ∃ e d, List.lookup x st.cache = some e ∧ e.desc = some d ∧
       now - e.timestamp < mgr.cache_days * 24 * 60 * 60) ∨
    ((subs.foldl (get_subreddit_descriptions_step mgr fetch false now) st).fetched.count x
        = st.fetched.count x + 1 ∧
     (subs.foldl (get_subreddit_descriptions_step mgr fetch false now) st).cache.lookup x
        = some ⟨some (fetch_desc_result fetch x), now⟩) := by
  obtain ⟨pre, post, rfl⟩ := List.append_of_mem hmem
  have hnd' := List.nodup_append.mp hnd
  have hxpre : x ∉ pre := fun hx => hnd'.2.2 hx (List.mem_cons_self x post)
  have hxpost : x ∉ post := (List.nodup_cons.mp hnd'.2.1).1
  rw [List.foldl_append, List.foldl_cons]
  obtain ⟨hc1, hf1, _⟩ := foldl_untouched mgr fetch false now x pre st hxpre
  cases hfr : sub_cache_fresh mgr false now
      (pre.foldl (get_subreddit_descriptions_step mgr fetch false now) st).cache x with
  | some d =>
    rw [step_of_fresh hfr]
    obtain ⟨e, hce, hed, hfrsh⟩ := sub_cache_fresh_some_iff.mp hfr
    obtain ⟨hc2, hf2, _⟩ := foldl_untouched mgr fetch false now x post
      { pre.foldl (get_subreddit_descriptions_step mgr fetch false now) st with
        descs := (x, d) ::
          (pre.foldl (get_subreddit_descriptions_step mgr fetch false now) st).descs } hxpost
    left
    refine ⟨?_, ?_, e, d, ?_, hed, hfrsh⟩
    · rw [hf2]; exact hf1
    · rw [hc2]; exact hc1
    · rw [← hc1]; exact hce
  | none =>
    rw [step_of_stale hfr]
    obtain ⟨hc2, hf2, _⟩ := foldl_untouched mgr fetch false now x post
      { descs := (x, fetch_desc_result fetch x) ::
          (pre.foldl (get_subreddit_descriptions_step mgr fetch false now) st).descs,
        cache := (x, ⟨some (fetch_desc_result fetch x), now⟩) ::
          (pre.foldl (get_subreddit_descriptions_step mgr fetch false now) st).cache,
        fetched := (pre.foldl (get_subreddit_descriptions_step mgr fetch false now) st).fetched
          ++ [x] } hxpost
    right
    constructor
    · rw [hf2]
      show ((pre.foldl (get_subreddit_descriptions_step mgr fetch false now) st).fetched
          ++ [x]).count x = st.fetched.count x + 1
      rw [List.count_append, hf1]
      simp [List.count_cons]
    · rw [hc2]
      show List.lookup x ((x, (⟨some (fetch_desc_result fetch x), now⟩ : SubEntry)) ::
        (pre.foldl (get_subreddit_descriptions_step mgr fetch false now) st).cache) = _
      rw [lookup_cons, if_pos rfl]

theorem c6_fetched_mono (mgr : CacheManager) (fetch : String → Option String)
    (force : Bool) (now : Int) :
    ∀ (subs : List String) (st : SubFetchState) (y : String),
      y ∈ st.fetched →
      y ∈ (subs.foldl (get_subreddit_descriptions_step mgr fetch force now) st).fetched
  | [], _, _, hy => hy
  | s :: rest, st, y, hy => by
    rw [List.foldl_cons]
    apply c6_fetched_mono mgr fetch force now rest _ y
    cases hfr : sub_cache_fresh mgr force now st.cache s with
    | some d => rw [step_of_fresh hfr]; exact hy
    | none =>
      rw [step_of_stale hfr]
      exact List.mem_append.mpr (Or.inl hy)

theorem c6_force_fetches (mgr : CacheManager) (fetch : String → Option String) (now : Int) :
    ∀ (subs : List String) (st : SubFetchState) (x : String), x ∈ subs →
      x ∈ (subs.foldl (get_subreddit_descriptions_step mgr fetch true now) st).fetched
  | [], _, x, hx => absurd hx (List.not_mem_nil x)
  | s :: rest, st, x, hx => by
    rw [List.foldl_cons]
    rcases List.mem_cons.mp hx with rfl | hx'
    · rw [step_of_stale (sub_cache_fresh_force mgr now st.cache x)]
      apply c6_fetched_mono mgr fetch true now rest _ x
      exact List.mem_append.mpr (Or.inr (List.mem_cons_self x []))
    · exact c6_force_fetches mgr fetch now rest _ x hx'

/-- C6: (i) when `force_refresh` is false and the cache holds an entry
for a requested topic `x` whose age is strictly below the TTL window,
the resolution returns the cached description for `x` and never invokes
the fetch collaborator for `x`; (ii) hence two successive resolutions
within the TTL invoke the collaborator at most once for `x`; (iii) with
`force_refresh` true the collaborator is invoked for every requested
topic on every call. -/
theorem c6_topic_cache_ttl (mgr : CacheManager) (fetch : String → Option String) :
    (∀ (subs : List String) (cache : List (String × SubEntry)) (now : Int)
        (x : String) (e : SubEntry) (d : String), x ∈ subs →
        List.lookup x cache = some e → e.desc = some d →
        now - e.timestamp < mgr.cache_days * 24 * 60 * 60 →
        (mgr.get_subreddit_descriptions fetch subs false cache now).descs.lookup x = some d ∧
        (mgr.get_subreddit_descriptions fetch subs false cache now).fetched.count x = 0) ∧
    (∀ (subs : List String) (cache : List (String × SubEntry)) (t1 t2 : Int)
        (x : String), subs.Nodup → x ∈ subs →
        0 ≤ t2 - t1 → t2 - t1 < mgr.cache_days * 24 * 60 * 60 →
        (mgr.get_subreddit_descriptions fetch subs false cache t1).fetched.count x +
          (mgr.get_subreddit_descriptions fetch subs false
            (mgr.get_subreddit_descriptions fetch subs false cache t1).cache t2).fetched.count x
          ≤ 1) ∧
    (∀ (subs : List String) (cache : List (String × SubEntry)) (now : Int)
        (x : String), x ∈ subs →
        x ∈ (mgr.get_subreddit_descriptions fetch subs true cache now).fetched) := by
  refine ⟨?_, ?_, ?_⟩
  · intro subs cache now x e d hmem hce hed hfr
    unfold CacheManager.get_subreddit_descriptions
    obtain ⟨_, hf, hd⟩ := c6_hit_aux mgr fetch now x e d hed hfr subs ⟨[], cache, []⟩ hce
    exact ⟨by rw [hd, if_pos hmem], hf⟩
  · intro subs cache t1 t2 x hnd hmem hmono hwin
    unfold CacheManager.get_subreddit_descriptions
    rcases c6_call_once mgr fetch t1 x subs hnd hmem ⟨[], cache, []⟩ with
      ⟨hf1, _, _⟩ | ⟨hf1, hc1⟩
    · rcases c6_call_once mgr fetch t2 x subs hnd hmem
        ⟨[], (subs.foldl (get_subreddit_descriptions_step mgr fetch false t1)
          ⟨[], cache, []⟩).cache, []⟩ with ⟨hf2, _, _⟩ | ⟨hf2, _⟩ <;>
        rw [hf1, hf2] <;> simp
    · obtain ⟨_, hf2, _⟩ := c6_hit_aux mgr fetch t2 x
        ⟨some (fetch_desc_result fetch x), t1⟩ (fetch_desc_result fetch x) rfl hwin subs
        ⟨[], (subs.foldl (get_subreddit_descriptions_step mgr fetch false t1)
          ⟨[], cache, []⟩).cache, []⟩ hc1
      rw [hf1, hf2]
      simp
  · intro subs cache now x hmem
    unfold CacheManager.get_subreddit_descriptions
    exact c6_force_fetches mgr fetch now subs ⟨[], cache, []⟩ x hmem

/-- C6 witness: with a fresh concrete cache entry for `"x"`, resolving
returns the cached description without invoking the collaborator; two
concrete resolutions within the TTL invoke it at most once; with
`force_refresh` the topic is fetched. -/
theorem c6_topic_cache_ttl_witness :
    (mgr0.get_subreddit_descriptions c6w_fetch ["x"] false c6w_cache 100).descs.lookup "x"
      = some "cached description" ∧
    (mgr0.get_subreddit_descriptions c6w_fetch ["x"] false c6w_cache 100).fetched.count "x"
      = 0 ∧
    (mgr0.get_subreddit_descriptions c6w_fetch ["x"] false c6w_cache 100).fetched.count "x" +
      (mgr0.get_subreddit_descriptions c6w_fetch ["x"] false
        (mgr0.get_subreddit_descriptions c6w_fetch ["x"] false c6w_cache 100).cache
        200).fetched.count "x" ≤ 1 ∧
    "x" ∈ (mgr0.get_subreddit_descriptions c6w_fetch ["x"] true c6w_cache 100).fetched := by
  obtain ⟨ha, hb, hc⟩ := c6_topic_cache_ttl mgr0 c6w_fetch
  obtain ⟨h1, h2⟩ := ha ["x"] c6w_cache 100 "x" ⟨some "cached description", 0⟩
    "cached description" (by decide) rfl rfl (by decide)
  exact ⟨h1, h2,
    hb ["x"] c6w_cache 100 200 "x" (by decide) (by decide) (by decide) (by decide),
    hc ["x"] c6w_cache 100 "x" (by decide)⟩

/-! ## Fetch-path and serialization divergences (C7, C8, C9) -/

/-- C7 (code bug): the fetch path does not deliver posts with bounded
bodies.  At a concrete submission whose `selftext` has 200 characters:
(i) `fetch_posts` returns no posts at all — its `Post(...)` call omits
the required `ups`/`downs` dataclass fields, so each iteration raises
TypeError, which the surrounding handler swallows; (ii) the `Post` value
that call was meant to build stores the 200-character body in full,
above the configured maximum of 150; (iii) truncation to
`max_post_body_length` happens only inside `Post.to_xml`, at
serialization: serializing the full post and serializing the
pre-truncated post give the same XML. -/
theorem c7_fetch_truncation_bug :
    RedditService.fetch_posts [c7_raw] = [] ∧
    c7_post.selftext.length = 200 ∧ ¬ (c7_post.selftext.length ≤ 150) ∧
    Post.to_xml c7_post true 150 =
      Post.to_xml { c7_post with selftext := py_take c7_post.selftext 150 } true 150 :=
  ⟨rfl, by decide, by decide, rfl⟩

/-- C8 (code bug): the subreddit-context block that
`analyze_reddit_activity` interpolates into the prompt is built without
escaping, so a description containing the structure's metacharacters
corrupts record boundaries: with a single requested topic, the produced
block contains two `</Subreddit>` record terminators and two
`<Subreddit name=` record openers, while the escaped serializer
`subreddit_contexts_to_xml` (defined in models.py but not used by
`analyze_reddit_activity`) produces exactly one of each. -/
theorem c8_unescaped_subreddit_context :
    countOccs ("</Subreddit>".data) (analyze_subreddit_context_xml c8_descs).data = 2 ∧
    countOccs ("</Subreddit>".data) (subreddit_contexts_to_xml c8_descs).data = 1 ∧
    countOccs ("<Subreddit name=".data) (analyze_subreddit_context_xml c8_descs).data = 2 ∧
    countOccs ("<Subreddit name=".data) (subreddit_contexts_to_xml c8_descs).data = 1 :=
  ⟨rfl, rfl, rfl, rfl⟩

/-- C9 (code bug): serialization of fetched comments raises rather than
degrading.  At a concrete praw comment with a textual parent:
(i) `fetch_comments` returns no comments at all — its `Comment(...)`
call omits the required `ups`/`downs` dataclass fields, so each
iteration raises TypeError, which the surrounding handler swallows;
(ii) the comment that call was meant to build has `parent_context` set
and `parent_author` left at its default `None` (`fetch_comments` never
passes it); (iii) `Comment.to_xml` on that comment evaluates
`html.escape(None)` and raises AttributeError instead of returning XML. -/
theorem c9_comment_serialization_bug :
    RedditService.fetch_comments [c9_raw] true 500 500 = [] ∧
    c9_comment.parent_author = none ∧
    c9_comment.parent_context = some "the parent text" ∧
    Comment.to_xml c9_comment = Except.error PyErr.attributeError :=
  ⟨rfl, rfl, rfl, rfl⟩

end RedditWhoDis
